import Mathlib

/-!
Verification of the profile-analyzer core: the `ProfileNode` tree model
(`profile_parser.py`), the generic object-graph decoding helpers of
`ProfileParser`, the LRU `ProfileCache` (`cache.py`), and the query engine
(`server.py`).

Modelling conventions:
* Python `float` durations are modelled as exact rationals (`ℚ`); the
  display-only `round(x, k)` calls and the `*_formatted` string fields of the
  query results are omitted, since they only re-render the exact values.
* Python `dict` values are modelled as association lists in insertion order;
  `dput` writes with dict assignment semantics (replace in place, else append)
  and `alookup` reads (first match).
* The `OrderedDict` backing the cache is modelled as a list whose front is the
  least-recently-used end (`popitem(last=False)` pops the front) and whose back
  is the most-recently-used end (`move_to_end` moves to the back).
* File I/O, `uuid4` id generation and `re.compile` are inputs of the modelled
  functions: `load` receives the parse outcome and the fresh id, and
  `search_operations` receives the regex compiler as a function parameter.
-/

/-- Timing metric with entries and counts (`TimingMetric` in
`profile_parser.py`): label-keyed accumulated seconds and invocation counts. -/
structure TimingMetric where
  entries : List (String × ℚ)
  counts : List (String × ℤ)
deriving Repr, DecidableEq

/-- Generated source code for an operation (`OperationSource`). -/
structure OperationSource where
  source : String
  argument_keys : List String
  argument_names : List String
deriving Repr, DecidableEq

/-- First-match lookup in an association list, the read side of a Python
dict whose entries are kept in insertion order. -/
def alookup {α : Type} : List (String × α) → String → Option α
  | [], _ => none
  | (k', v) :: rest, k => if k' = k then some v else alookup rest k

/-- Write with Python dict assignment semantics: replace the value in place
when the key is present, otherwise append the new entry. -/
def dput {α : Type} : List (String × α) → String → α → List (String × α)
  | [], k, v => [(k, v)]
  | (k', v') :: rest, k, v =>
    if k' = k then (k, v) :: rest else (k', v') :: dput rest k v

/-- Total time of a metric: `sum(self.entries.values())`. -/
def TimingMetric.total (m : TimingMetric) : ℚ :=
  (m.entries.map Prod.snd).sum

/-- Average time for a key (`TimingMetric.get_average`). -/
def TimingMetric.get_average (m : TimingMetric) (key : String) : ℚ :=
  match alookup m.entries key, alookup m.counts key with
  | some v, some c => if c > 0 then v / (c : ℚ) else 0
  | _, _ => 0

/-- One `OperationProfileNode` (`ProfileNode` in `profile_parser.py`).
The last component models the `_total_duration` cache field, `None` unless
explicitly filled (nothing in the repository ever fills it). -/
inductive ProfileNode where
  | mk (key name : String) (children : List ProfileNode)
       (metric measured_time stage_detail_time : Option TimingMetric)
       (operation_sources : List (String × List OperationSource))
       (metadata : List (String × String))
       (total_duration_cache : Option ℚ)

def ProfileNode.key : ProfileNode → String
  | .mk k _ _ _ _ _ _ _ _ => k

def ProfileNode.name : ProfileNode → String
  | .mk _ nm _ _ _ _ _ _ _ => nm

def ProfileNode.children : ProfileNode → List ProfileNode
  | .mk _ _ cs _ _ _ _ _ _ => cs

def ProfileNode.metric : ProfileNode → Option TimingMetric
  | .mk _ _ _ m _ _ _ _ _ => m

def ProfileNode.measured_time : ProfileNode → Option TimingMetric
  | .mk _ _ _ _ mt _ _ _ _ => mt

def ProfileNode.stage_detail_time : ProfileNode → Option TimingMetric
  | .mk _ _ _ _ _ st _ _ _ => st

def ProfileNode.operation_sources : ProfileNode → List (String × List OperationSource)
  | .mk _ _ _ _ _ _ os _ _ => os

def ProfileNode.metadata : ProfileNode → List (String × String)
  | .mk _ _ _ _ _ _ _ md _ => md

def ProfileNode.total_duration_cache : ProfileNode → Option ℚ
  | .mk _ _ _ _ _ _ _ _ c => c

/-- Duration of the node only: `self.metric.total` if a metric is present. -/
def ProfileNode.self_duration (n : ProfileNode) : ℚ :=
  match n.metric with
  | some m => m.total
  | none => 0

mutual

/-- Total duration including children (`ProfileNode.total_duration`): the
cached value when `_total_duration` is set, else self plus children. -/
def ProfileNode.total_duration : ProfileNode → ℚ
  | .mk k nm cs m mt st os md cache =>
    match cache with
    | some v => v
    | none => (ProfileNode.mk k nm cs m mt st os md cache).self_duration +
        ProfileNode.childrenDurationSum cs

/-- Sum of `total_duration` over a list of children
(`ProfileNode.children_duration`). -/
def ProfileNode.childrenDurationSum : List ProfileNode → ℚ
  | [] => 0
  | c :: cs => c.total_duration + ProfileNode.childrenDurationSum cs

end

/-- Total duration of all children (`ProfileNode.children_duration`). -/
def ProfileNode.children_duration (n : ProfileNode) : ℚ :=
  ProfileNode.childrenDurationSum n.children

/-- Measured duration if available (`ProfileNode.measured_duration`). -/
def ProfileNode.measured_duration (n : ProfileNode) : ℚ :=
  match n.measured_time with
  | some m => m.total
  | none => 0

/-- Whether the node has source code for its own key
(`ProfileNode.has_source`): truthiness of `operation_sources.get(key)`. -/
def ProfileNode.has_source (n : ProfileNode) : Bool :=
  match alookup n.operation_sources n.key with
  | some (_ :: _) => true
  | _ => false

/-- First source for the node's own key (`ProfileNode.get_source`). -/
def ProfileNode.get_source (n : ProfileNode) : Option OperationSource :=
  match alookup n.operation_sources n.key with
  | some (s :: _) => some s
  | _ => none

mutual

/-- Depth-first search for a node by key (`ProfileNode.find_by_key`). -/
def ProfileNode.find_by_key : ProfileNode → String → Option ProfileNode
  | .mk k nm cs m mt st os md cache, key =>
    if k = key then some (ProfileNode.mk k nm cs m mt st os md cache)
    else ProfileNode.findInList cs key

def ProfileNode.findInList : List ProfileNode → String → Option ProfileNode
  | [], _ => none
  | c :: cs, key =>
    match c.find_by_key key with
    | some r => some r
    | none => ProfileNode.findInList cs key

end

mutual

/-- All nodes of the subtree in depth-first order (`ProfileNode.all_nodes`). -/
def ProfileNode.all_nodes : ProfileNode → List ProfileNode
  | .mk k nm cs m mt st os md cache =>
    ProfileNode.mk k nm cs m mt st os md cache :: ProfileNode.allNodesList cs

def ProfileNode.allNodesList : List ProfileNode → List ProfileNode
  | [] => []
  | c :: cs => c.all_nodes ++ ProfileNode.allNodesList cs

end

mutual

/-- Root-to-node name chain (`ProfileNode.get_path`).  An empty intermediate
path string is falsy in Python, so the `current_path` test and the rejection
of an empty result by the caller loop are modelled on string emptiness. -/
def ProfileNode.get_path : ProfileNode → String → String → Option String
  | .mk k nm cs _ _ _ _ _ _, target, current =>
    let my_path := if current = "" then nm else current ++ " > " ++ nm
    if k = target then some my_path
    else ProfileNode.getPathList cs target my_path

def ProfileNode.getPathList : List ProfileNode → String → String → Option String
  | [], _, _ => none
  | c :: cs, target, p =>
    match c.get_path target p with
    | some r => if r = "" then ProfileNode.getPathList cs target p else some r
    | none => ProfileNode.getPathList cs target p

end

/-- Python `x or y` over an optional string result: keep `x` only when it is
present and truthy (non-empty). -/
def orElseStr (o : Option String) (fallback : String) : String :=
  match o with
  | some s => if s = "" then fallback else s
  | none => fallback


/-! ### Generic object-graph decoding (`ProfileParser` helpers) -/

/-- An `xml.etree.ElementTree` element: tag, attributes, text, children. -/
inductive XmlElement where
  | mk (tag : String) (attrs : List (String × String)) (text : Option String)
       (children : List XmlElement)

def XmlElement.tag : XmlElement → String
  | .mk t _ _ _ => t

def XmlElement.attrs : XmlElement → List (String × String)
  | .mk _ a _ _ => a

def XmlElement.text : XmlElement → Option String
  | .mk _ _ x _ => x

def XmlElement.children : XmlElement → List XmlElement
  | .mk _ _ _ cs => cs

mutual

/-- All proper descendants of an element in document order (what the XPath
prefix `.//` of `findall` ranges over). -/
def XmlElement.descendants : XmlElement → List XmlElement
  | .mk _ _ _ cs => XmlElement.descList cs

def XmlElement.descList : List XmlElement → List XmlElement
  | [] => []
  | c :: cs => (c :: c.descendants) ++ XmlElement.descList cs

end

/-- Model of `findall(".//object[@class=cls]")`: descendant objects of the
given serialized class, in document order. -/
def findAllClass (e : XmlElement) (cls : String) : List XmlElement :=
  e.descendants.filter
    (fun d => d.tag == "object" && alookup d.attrs "class" == some cls)

/-- Model of `findall("void[@method='put']")` over direct children. -/
def putVoids (e : XmlElement) : List XmlElement :=
  e.children.filter
    (fun c => c.tag == "void" && alookup c.attrs "method" == some "put")

/-- A value produced by `ProfileParser._extract_value`: one of the Python
scalar types appearing in the serialization.  Python floats are modelled as
exact rationals. -/
inductive PyValue where
  | str (s : String)
  | int (n : ℤ)
  | num (q : ℚ)
  | bool (b : Bool)
deriving Repr, DecidableEq

/-- The one exception the modelled decoder fragment can raise: Python's
`ValueError`/`TypeError` from a failed scalar conversion. -/
inductive PyErr where
  | valueError
deriving Repr, DecidableEq

/-- Digit-string value, `none` unless the string is one or more digits. -/
def readDigits (cs : List Char) : Option ℕ :=
  if cs ≠ [] ∧ cs.all Char.isDigit then
    some (cs.foldl (fun a c => a * 10 + (c.toNat - 48)) 0)
  else none

/-- Split an optional leading sign: returns (negative, rest). -/
def splitSign : List Char → Bool × List Char
  | '-' :: cs => (true, cs)
  | '+' :: cs => (false, cs)
  | cs => (false, cs)

/-- Mantissa of a decimal literal: digits with at most one dot, not all
empty.  Returns the exact rational value. -/
def readMantissa (cs : List Char) : Option ℚ :=
  match cs.splitOn '.' with
  | [whole] =>
    match readDigits whole with
    | some n => some (n : ℚ)
    | none => none
  | [whole, frac] =>
    if whole = [] ∧ frac = [] then none
    else if whole.all Char.isDigit ∧ frac.all Char.isDigit then
      some ((whole.foldl (fun a c => a * 10 + (c.toNat - 48)) 0 : ℚ) +
        (frac.foldl (fun a c => a * 10 + (c.toNat - 48)) 0 : ℚ) / (10 : ℚ) ^ frac.length)
    else none
  | _ => none

/-- Model of Python `float(s)` on plain decimal notation
(`[sign] digits [. digits] [e [sign] digits]`); `inf`/`nan`/underscores and
surrounding whitespace, which the profile XML never contains, are out of the
modelled subset and map to failure. -/
def strToFloat? (s : String) : Option ℚ :=
  let (neg, rest) := splitSign s.toList
  let (mant, expn) :=
    match rest.splitOn 'e' with
    | [m, x] => (m, some x)
    | _ =>
      match rest.splitOn 'E' with
      | [m, x] => (m, some x)
      | _ => (rest, none)
  match readMantissa mant with
  | none => none
  | some q =>
    let signed := if neg then -q else q
    match expn with
    | none => some signed
    | some x =>
      let (eneg, edigits) := splitSign x
      match readDigits edigits with
      | none => none
      | some e =>
        some (if eneg then signed / (10 : ℚ) ^ e else signed * (10 : ℚ) ^ e)

/-- Model of Python `int(s)`: an optional sign followed by digits. -/
def strToInt? (s : String) : Option ℤ :=
  let (neg, rest) := splitSign s.toList
  match readDigits rest with
  | some n => some (if neg then -(n : ℤ) else (n : ℤ))
  | none => none

/-- Python `float(v)` over the modelled scalar values: fails exactly on
non-numeric strings. -/
def pyFloat? : PyValue → Option ℚ
  | .str s => strToFloat? s
  | .int n => some (n : ℚ)
  | .num q => some q
  | .bool b => some (if b then 1 else 0)

/-- Python `int(v)` over the modelled scalar values: string conversion fails
on anything but an integer literal; floats truncate toward zero. -/
def pyInt? : PyValue → Option ℤ
  | .str s => strToInt? s
  | .int n => some n
  | .num q => some (Int.tdiv q.num (q.den : ℤ))
  | .bool b => some (if b then 1 else 0)

/-- Python `str(v)`.  Strings, ints and booleans render exactly; the display
form of a float is abstracted by an injective rendering of the rational. -/
def pyStr : PyValue → String
  | .str s => s
  | .int n => toString n
  | .num q => toString q
  | .bool b => if b then "True" else "False"

/-- Python truthiness of the modelled scalar values. -/
def pyTruthy : PyValue → Bool
  | .str s => s ≠ ""
  | .int n => n ≠ 0
  | .num q => q ≠ 0
  | .bool b => b

mutual

/-- Model of `ProfileParser._extract_value`: typed scalar tags convert their
text (an empty or missing text is falsy and yields the zero value; a failed
conversion raises), any other tag recurses into the first child that yields a
value. -/
def extract_value : XmlElement → Except PyErr (Option PyValue)
  | .mk tag _ text children =>
    if tag = "string" then
      .ok (some (.str (match text with | some t => t | none => "")))
    else if tag = "double" then
      match text with
      | some t =>
        if t = "" then .ok (some (.num 0))
        else
          match strToFloat? t with
          | some q => .ok (some (.num q))
          | none => .error .valueError
      | none => .ok (some (.num 0))
    else if tag = "int" then
      match text with
      | some t =>
        if t = "" then .ok (some (.int 0))
        else
          match strToInt? t with
          | some n => .ok (some (.int n))
          | none => .error .valueError
      | none => .ok (some (.int 0))
    else if tag = "float" then
      match text with
      | some t =>
        if t = "" then .ok (some (.num 0))
        else
          match strToFloat? t with
          | some q => .ok (some (.num q))
          | none => .error .valueError
      | none => .ok (some (.num 0))
    else if tag = "long" then
      match text with
      | some t =>
        if t = "" then .ok (some (.int 0))
        else
          match strToInt? t with
          | some n => .ok (some (.int n))
          | none => .error .valueError
      | none => .ok (some (.int 0))
    else if tag = "boolean" then
      match text with
      | some t =>
        if t = "" then .ok (some (.bool false))
        else .ok (some (.bool (t.toLower == "true")))
      | none => .ok (some (.bool false))
    else extractChildren children

/-- The trailing loop of `_extract_value`: first child producing a value. -/
def extractChildren : List XmlElement → Except PyErr (Option PyValue)
  | [] => .ok none
  | c :: cs =>
    match extract_value c with
    | .error e => .error e
    | .ok (some v) => .ok (some v)
    | .ok none => extractChildren cs

end

/-- One `void[@method='put']` entry of `_parse_double_map`: entries with fewer
than two children are skipped, a failed `float(value)` coercion is swallowed
(`except (ValueError, TypeError): pass`), while a conversion error raised by
`_extract_value` itself propagates. -/
def putEntryDouble (acc : List (String × ℚ)) (vp : XmlElement) :
    Except PyErr (List (String × ℚ)) :=
  match vp.children with
  | c0 :: c1 :: _ =>
    match extract_value c0 with
    | .error e => .error e
    | .ok k =>
      match extract_value c1 with
      | .error e => .error e
      | .ok v =>
        match k, v with
        | some kv, some vv =>
          match pyFloat? vv with
          | some q => .ok (dput acc (pyStr kv) q)
          | none => .ok acc
        | _, _ => .ok acc
  | _ => .ok acc

def parseDoubleEntries (acc : List (String × ℚ)) :
    List XmlElement → Except PyErr (List (String × ℚ))
  | [] => .ok acc
  | vp :: rest =>
    match putEntryDouble acc vp with
    | .error e => .error e
    | .ok acc' => parseDoubleEntries acc' rest

/-- Model of `ProfileParser._parse_double_map`: fold the put-entries of every
descendant `java.util.HashMap` object. -/
def parse_double_map (element : XmlElement) : Except PyErr (List (String × ℚ)) :=
  (findAllClass element "java.util.HashMap").foldl
    (fun acc hm =>
      match acc with
      | .error e => .error e
      | .ok m => parseDoubleEntries m (putVoids hm))
    (.ok [])

/-- One put entry of `_parse_int_map` (same shape, `int` coercion). -/
def putEntryInt (acc : List (String × ℤ)) (vp : XmlElement) :
    Except PyErr (List (String × ℤ)) :=
  match vp.children with
  | c0 :: c1 :: _ =>
    match extract_value c0 with
    | .error e => .error e
    | .ok k =>
      match extract_value c1 with
      | .error e => .error e
      | .ok v =>
        match k, v with
        | some kv, some vv =>
          match pyInt? vv with
          | some n => .ok (dput acc (pyStr kv) n)
          | none => .ok acc
        | _, _ => .ok acc
  | _ => .ok acc

def parseIntEntries (acc : List (String × ℤ)) :
    List XmlElement → Except PyErr (List (String × ℤ))
  | [] => .ok acc
  | vp :: rest =>
    match putEntryInt acc vp with
    | .error e => .error e
    | .ok acc' => parseIntEntries acc' rest

/-- Model of `ProfileParser._parse_int_map`. -/
def parse_int_map (element : XmlElement) : Except PyErr (List (String × ℤ)) :=
  (findAllClass element "java.util.HashMap").foldl
    (fun acc hm =>
      match acc with
      | .error e => .error e
      | .ok m => parseIntEntries m (putVoids hm))
    (.ok [])

/-- One put entry of `_parse_string_map`: only the key is checked for
presence; a falsy value renders as the empty string. -/
def putEntryString (acc : List (String × String)) (vp : XmlElement) :
    Except PyErr (List (String × String)) :=
  match vp.children with
  | c0 :: c1 :: _ =>
    match extract_value c0 with
    | .error e => .error e
    | .ok k =>
      match extract_value c1 with
      | .error e => .error e
      | .ok v =>
        match k with
        | some kv =>
          .ok (dput acc (pyStr kv)
            (match v with
             | some vv => if pyTruthy vv then pyStr vv else ""
             | none => ""))
        | none => .ok acc
  | _ => .ok acc

def parseStringEntries (acc : List (String × String)) :
    List XmlElement → Except PyErr (List (String × String))
  | [] => .ok acc
  | vp :: rest =>
    match putEntryString acc vp with
    | .error e => .error e
    | .ok acc' => parseStringEntries acc' rest

/-- Model of `ProfileParser._parse_string_map`. -/
def parse_string_map (element : XmlElement) :
    Except PyErr (List (String × String)) :=
  (findAllClass element "java.util.HashMap").foldl
    (fun acc hm =>
      match acc with
      | .error e => .error e
      | .ok m => parseStringEntries m (putVoids hm))
    (.ok [])

/-! ### Source propagation (`ProfileParser._propagate_sources`) -/

/-- The merge step of `_propagate_sources`: walk the parent's map in order and
append every entry whose key the child map does not yet hold. -/
def mergeAbsent (pm cm : List (String × List OperationSource)) :
    List (String × List OperationSource) :=
  pm.foldl
    (fun acc kv =>
      match alookup acc kv.1 with
      | some _ => acc
      | none => acc ++ [kv])
    cm

mutual

/-- Model of `_propagate_sources`, phrased functionally: `pm` is the merged
map of the parent (the empty map at the root call, so the root itself is left
unchanged); each node merges `pm` into its own map and recurses with the
merged map. -/
def propagate_sources (pm : List (String × List OperationSource)) :
    ProfileNode → ProfileNode
  | .mk k nm cs m mt st os md cache =>
    ProfileNode.mk k nm (propagateList (mergeAbsent pm os) cs) m mt st
      (mergeAbsent pm os) md cache

def propagateList (pm : List (String × List OperationSource)) :
    List ProfileNode → List ProfileNode
  | [] => []
  | c :: cs => propagate_sources pm c :: propagateList pm cs

end

/-- Address a node by its child-index path from the root (a statement device
for ancestor/descendant claims; not part of the Python source). -/
def nodeAt : ProfileNode → List ℕ → Option ProfileNode
  | n, [] => some n
  | n, i :: p =>
    match n.children.get? i with
    | some c => nodeAt c p
    | none => none

/-! ### Profile cache (`cache.py`) -/

/-- A cached profile with metadata (`CachedProfile`). -/
structure CachedProfile where
  profile_id : String
  name : String
  path : String
  root : ProfileNode
  node_count : ℕ

/-- Constructing a `CachedProfile` with `node_count=0` triggers
`__post_init__`, which fills `node_count` with `len(root.all_nodes())`. -/
def mkCachedProfile (pid nm path : String) (root : ProfileNode) : CachedProfile :=
  ⟨pid, nm, path, root, root.all_nodes.length⟩

/-- Last path component, `os.path.basename`. -/
def basenameOf (p : String) : String :=
  (p.splitOn "/").getLastD ""

/-- Drop the extension, `os.path.splitext(...)[0]`: split at the last dot
unless every character before it is a dot. -/
def stripExt (s : String) : String :=
  let cs := s.toList
  match (cs.reverse.takeWhile (· ≠ '.')).length, cs.length with
  | suffixLen, total =>
    if suffixLen < total ∧ (cs.take (total - suffixLen - 1)).any (· ≠ '.') then
      String.mk (cs.take (total - suffixLen - 1))
    else s

/-- Profile display name: `os.path.splitext(os.path.basename(path))[0]`. -/
def nameOf (path : String) : String :=
  stripExt (basenameOf path)

/-- The two ways `ProfileCache.load` can raise: a parse failure propagating
out of `parse_file`, or the `KeyError` of `popitem` on an empty cache. -/
inductive LoadErr where
  | parseFail (e : PyErr)
  | keyError
deriving Repr, DecidableEq

/-- The cache's `OrderedDict`, front = least recently used. -/
abbrev CacheState := List CachedProfile

/-- `OrderedDict.move_to_end(pid)`: move the entry with that id to the back. -/
def moveToEnd : CacheState → String → CacheState
  | [], _ => []
  | e :: rest, pid =>
    if e.profile_id = pid then rest ++ [e] else e :: moveToEnd rest pid

/-- The eviction loop of `ProfileCache.load`:
`while len(self._cache) >= self.max_size: self._cache.popitem(last=False)`.
Popping an empty `OrderedDict` raises `KeyError`. -/
def evict_loop (max_size : ℕ) : CacheState → Except LoadErr CacheState
  | [] =>
    if ([] : CacheState).length ≥ max_size then .error .keyError else .ok []
  | e :: rest =>
    if (e :: rest).length ≥ max_size then evict_loop max_size rest
    else .ok (e :: rest)

namespace ProfileCache

/-- Model of `ProfileCache.load`.  The file parse outcome and the fresh
`uuid4` id are inputs; they are consulted only on a cache miss.  Returns the
served profile together with the new cache state. -/
def load (max_size : ℕ) (st : CacheState) (path : String)
    (parsed : Except PyErr ProfileNode) (fresh_id : String) :
    Except LoadErr (CachedProfile × CacheState) :=
  match st.find? (fun e => e.path == path) with
  | some e => .ok (e, moveToEnd st e.profile_id)
  | none =>
    match parsed with
    | .error pe => .error (.parseFail pe)
    | .ok root =>
      let cached := mkCachedProfile fresh_id (nameOf path) path root
      match evict_loop max_size st with
      | .error e => .error e
      | .ok st' => .ok (cached, st' ++ [cached])

/-- Model of `ProfileCache.get`: on a hit, mark most-recently-used. -/
def get (st : CacheState) (pid : String) : Option CachedProfile × CacheState :=
  match st.find? (fun e => e.profile_id == pid) with
  | some e => (some e, moveToEnd st pid)
  | none => (none, st)

/-- Model of `ProfileCache.remove`: delete the entry with the given id. -/
def removeEntry : CacheState → String → CacheState
  | [], _ => []
  | e :: rest, pid =>
    if e.profile_id = pid then rest else e :: removeEntry rest pid

end ProfileCache

/-- One cache operation, for stating sequences of cache calls.  A `load`
carries the path together with the parse outcome and fresh id the call would
observe. -/
inductive CacheOp where
  | load (path : String) (parsed : Except PyErr ProfileNode) (fresh_id : String)
  | get (pid : String)
  | remove (pid : String)
  | clear

/-- The cache state after one operation.  When `load` raises, the state it
leaves behind is kept: a parse failure happens before any cache mutation, and
the `KeyError` of the eviction loop fires only once everything is popped. -/
def stepState (max_size : ℕ) (st : CacheState) : CacheOp → CacheState
  | .load path parsed fresh_id =>
    match ProfileCache.load max_size st path parsed fresh_id with
    | .ok (_, st') => st'
    | .error (.parseFail _) => st
    | .error .keyError => []
  | .get pid => (ProfileCache.get st pid).2
  | .remove pid => ProfileCache.removeEntry st pid
  | .clear => []

/-- The cache state after a sequence of operations. -/
def runOps (max_size : ℕ) (st : CacheState) (ops : List CacheOp) : CacheState :=
  ops.foldl (stepState max_size) st

/-- Input of one `load` call in a load sequence: the path, the fresh id the
call would draw, and the tree the file would parse to. -/
structure LoadInput where
  path : String
  fid : String
  root : ProfileNode

def LoadInput.toOp (i : LoadInput) : CacheOp := .load i.path (.ok i.root) i.fid

/-- The cache entry a miss on this input inserts. -/
def LoadInput.entry (i : LoadInput) : CachedProfile :=
  mkCachedProfile i.fid (nameOf i.path) i.path i.root

/-- Run a sequence of (successfully parsing) loads. -/
def loadsFrom (max_size : ℕ) (st : CacheState) (is_ : List LoadInput) : CacheState :=
  runOps max_size st (is_.map LoadInput.toOp)

/-- The paths held by a cache state, in recency order. -/
def statePaths (st : CacheState) : List String := st.map CachedProfile.path

/-! ### Query engine (`server.py`) -/

/-- Descending comparison on a rational measure, the relation behind the
Python `sort(key=..., reverse=True)` calls. -/
def descendingOn {α : Type} (f : α → ℚ) : α → α → Prop :=
  fun a b => f b ≤ f a

instance {α : Type} (f : α → ℚ) : DecidableRel (descendingOn f) :=
  fun a b => inferInstanceAs (Decidable (f b ≤ f a))

instance {α : Type} (f : α → ℚ) : IsTotal α (descendingOn f) :=
  ⟨fun a b => le_total (f b) (f a)⟩

instance {α : Type} (f : α → ℚ) : IsTrans α (descendingOn f) :=
  ⟨fun _ _ _ h1 h2 => le_trans h2 h1⟩

/-- Invocation count used by `find_slowest` and `list_children`:
`sum(node.metric.counts.values())` when a metric with counts is present. -/
def invocationsOf (n : ProfileNode) : ℤ :=
  match n.metric with
  | some m => if m.counts ≠ [] then (m.counts.map Prod.snd).sum else 0
  | none => 0

/-- The duration `find_slowest` ranks by: total with children, else self. -/
def chosenDuration (include_children : Bool) (n : ProfileNode) : ℚ :=
  if include_children then n.total_duration else n.self_duration

/-- One row of the `find_slowest` result (display-formatted duplicates of the
numeric fields omitted). -/
structure SlowEntry where
  key : String
  name : String
  path : String
  duration : ℚ
  percentage : ℚ
  invocations : ℤ
  avg_duration : ℚ
  has_source : Bool

/-- Model of the `find_slowest` tool: flatten the tree, keep keyed nodes whose
chosen duration reaches `min_duration`, sort descending, truncate, report. -/
def find_slowest (root : ProfileNode) (limit : ℕ) (min_duration : ℚ)
    (include_children : Bool) : List SlowEntry :=
  let nodes_with_duration :=
    (root.all_nodes.filter
      (fun n =>
        decide (chosenDuration include_children n ≥ min_duration) &&
          !(n.key == ""))).map
      (fun n => (n, chosenDuration include_children n))
  let sorted := List.insertionSort (descendingOn Prod.snd) nodes_with_duration
  let total_profile_duration := root.total_duration
  (sorted.take limit).map (fun p =>
    { key := p.1.key
      name := p.1.name
      path := orElseStr (root.get_path p.1.key "") p.1.name
      duration := p.2
      percentage :=
        if total_profile_duration > 0 then p.2 / total_profile_duration * 100
        else 0
      invocations := invocationsOf p.1
      avg_duration :=
        if invocationsOf p.1 > 0 then p.2 / (invocationsOf p.1 : ℚ) else p.2
      has_source := p.1.has_source })

/-- One row of the `search_operations` result. -/
structure SearchEntry where
  key : String
  name : String
  path : String
  duration : ℚ
  has_source : Bool

/-- Result of `search_operations`: either the invalid-pattern error dictionary
(which carries no match list) or the match report. -/
inductive SearchResult where
  | invalidArg (pattern : String)
  | ok (match_list : List SearchEntry) (match_count showing : ℕ)

def searchEntryOf (root n : ProfileNode) : SearchEntry :=
  { key := n.key
    name := n.name
    path := orElseStr (root.get_path n.key "") n.name
    duration := n.total_duration
    has_source := n.has_source }

/-- Model of the `search_operations` tool.  `compile` stands for `re.compile`:
given the pattern and the ignorecase flag it yields a matcher on strings, or
`none` when the pattern is rejected (`re.error`).  The source always compiles
with `re.IGNORECASE`, hence the literal `true`. -/
def search_operations (compile : String → Bool → Option (String → Bool))
    (root : ProfileNode) (pattern : String) (limit : ℕ) : SearchResult :=
  match compile pattern true with
  | none => .invalidArg pattern
  | some regex =>
    let ms := (root.all_nodes.filter (fun n => regex n.name)).map
      (searchEntryOf root)
    let sorted := List.insertionSort (descendingOn SearchEntry.duration) ms
    .ok (sorted.take limit) ms.length (min ms.length limit)

/-- One row of `compare_profiles`' significant-change list. -/
structure ChangeEntry where
  key : String
  name : String
  duration_a : ℚ
  duration_b : ℚ
  change_percent : ℚ
  status : String

/-- Result of `compare_profiles` (per-profile name/total blocks reduced to the
two totals; formatted duplicates omitted). -/
structure CompareResult where
  total_a : ℚ
  total_b : ℚ
  overall_change_percent : ℚ
  overall_status : String
  significant_changes : List ChangeEntry
  threshold_percent : ℚ

/-- The key-to-node maps of `compare_profiles`: dict comprehension over
`all_nodes`, unkeyed nodes excluded, later nodes overwriting earlier ones. -/
def buildNodeMap (root : ProfileNode) : List (String × ProfileNode) :=
  root.all_nodes.foldl (fun m n => if n.key = "" then m else dput m n.key n) []

def selfDurationOf : Option ProfileNode → ℚ
  | some n => n.self_duration
  | none => 0

/-- `(node_a or node_b).name`: the name of the first present node. -/
def nameOfFirst : Option ProfileNode → Option ProfileNode → String
  | some n, _ => n.name
  | none, some n => n.name
  | none, none => ""

/-- Per-entry three-way classification in `compare_profiles`. -/
def entryStatus (change : ℚ) : String :=
  if change < 0 then "improved"
  else if change > 0 then "regressed"
  else "unchanged"

/-- The per-key body of the `compare_profiles` loop: skip keys silent in both
trees, compute the percent change (`+100` sentinel for new operations), and
keep the entry when `abs(change) >= threshold`. -/
def changeFor (nodes_a nodes_b : List (String × ProfileNode)) (threshold : ℚ)
    (key : String) : Option ChangeEntry :=
  let node_a := alookup nodes_a key
  let node_b := alookup nodes_b key
  let duration_a := selfDurationOf node_a
  let duration_b := selfDurationOf node_b
  if duration_a = 0 ∧ duration_b = 0 then none
  else if duration_a > 0 then
    let change := (duration_b - duration_a) / duration_a * 100
    if |change| ≥ threshold then
      some ⟨key, nameOfFirst node_a node_b, duration_a, duration_b, change,
        entryStatus change⟩
    else none
  else if duration_b > 0 then
    let change : ℚ := 100
    if |change| ≥ threshold then
      some ⟨key, nameOfFirst node_a node_b, duration_a, duration_b, change,
        entryStatus change⟩
    else none
  else none

/-- Model of the `compare_profiles` tool.  The union of the two key sets is
iterated in some order (Python set order is unspecified; the model fixes one),
which only affects tie order in the already-unspecified sort. -/
def compare_profiles (profile_a profile_b : CachedProfile) (threshold : ℚ) :
    CompareResult :=
  let total_a := profile_a.root.total_duration
  let total_b := profile_b.root.total_duration
  let overall_change := if total_a > 0 then (total_b - total_a) / total_a * 100 else 0
  let nodes_a := buildNodeMap profile_a.root
  let nodes_b := buildNodeMap profile_b.root
  let all_keys := (nodes_a.map Prod.fst ++ nodes_b.map Prod.fst).dedup
  let significant_changes := all_keys.filterMap (changeFor nodes_a nodes_b threshold)
  let sorted := List.insertionSort
    (descendingOn (fun e => |ChangeEntry.change_percent e|)) significant_changes
  { total_a := total_a
    total_b := total_b
    overall_change_percent := overall_change
    overall_status :=
      if overall_change < -threshold then "improved"
      else if overall_change > threshold then "regressed"
      else "unchanged"
    significant_changes := sorted.take 20
    threshold_percent := threshold }

/-! ### Statement devices over the model -/

mutual

/-- Every node of the subtree has an unset `_total_duration` cache, the state
in which the parser leaves every tree it builds. -/
def ProfileNode.cacheFree : ProfileNode → Bool
  | .mk _ _ cs _ _ _ _ _ cache => cache.isNone && ProfileNode.cacheFreeList cs

def ProfileNode.cacheFreeList : List ProfileNode → Bool
  | [] => true
  | c :: cs => c.cacheFree && ProfileNode.cacheFreeList cs

end

/-! ### Concrete fixtures for witnesses and counterexamples -/

/-- A keyed leaf with self duration 2 over one invocation. -/
def exLeafA : ProfileNode :=
  .mk "a" "A" [] (some ⟨[("run", 2)], [("run", 1)]⟩) none none [] [] none

/-- A keyed leaf with self duration 3 and a zero invocation count. -/
def exLeafB : ProfileNode :=
  .mk "b" "B" [] (some ⟨[("run", 3)], [("run", 0)]⟩) none none [] [] none

/-- A small profile tree: root self duration 1, children 2 and 3. -/
def exRoot : ProfileNode :=
  .mk "r" "R" [exLeafA, exLeafB] (some ⟨[("run", 1)], [("run", 1)]⟩)
    none none [] [] none

/-- The same shape with every self duration doubled. -/
def exRoot2 : ProfileNode :=
  .mk "r" "R"
    [.mk "a" "A" [] (some ⟨[("run", 4)], [("run", 1)]⟩) none none [] [] none,
     .mk "b" "B" [] (some ⟨[("run", 6)], [("run", 0)]⟩) none none [] [] none]
    (some ⟨[("run", 2)], [("run", 1)]⟩) none none [] [] none

/-- A cached profile around `exRoot`. -/
def exProfile : CachedProfile := mkCachedProfile "id1" "p" "/tmp/p.xml" exRoot

/-- A cached profile around `exRoot2`. -/
def exProfile2 : CachedProfile := mkCachedProfile "id2" "q" "/tmp/q.xml" exRoot2

/-- A two-level tree carrying operation sources: the root holds an entry for
key "r", its child holds its own entry for key "c". -/
def exSrcChild : ProfileNode :=
  .mk "c" "C" [] none none none [("c", [⟨"childSrc", [], []⟩])] [] none

def exSrcRoot : ProfileNode :=
  .mk "r" "R" [exSrcChild] none none none [("r", [⟨"rootSrc", [], []⟩])] [] none

/-- A put entry with a single child: the malformed map-wrapper shape. -/
def exShortPut : XmlElement :=
  .mk "void" [("method", "put")] none [.mk "string" [] (some "k") []]

/-- A HashMap object wrapping only the malformed put entry. -/
def exShortMap : XmlElement :=
  .mk "object" [("class", "java.util.HashMap")] none [exShortPut]

/-- A property element whose descendant HashMap holds the malformed entry. -/
def exShortElem : XmlElement := .mk "void" [("property", "entries")] none [exShortMap]

/-- Load inputs for the cache claims. -/
def exLoad1 : LoadInput := ⟨"/tmp/p.xml", "id1", exRoot⟩

def exLoad2 : LoadInput := ⟨"/tmp/q.xml", "id2", exRoot2⟩

/-! ## Theorems -/

/-- Structural induction principle for `ProfileNode` (children hypothesis by
list membership). -/
theorem ProfileNode.inductionOn (P : ProfileNode → Prop)
    (h : ∀ k nm cs m mt st os md cache,
      (∀ c ∈ cs, P c) → P (ProfileNode.mk k nm cs m mt st os md cache)) :
    ∀ n, P n
  | .mk k nm cs m mt st os md cache =>
    h k nm cs m mt st os md cache
      (fun c hc => ProfileNode.inductionOn P h c)
termination_by n => sizeOf n
decreasing_by
  have := List.sizeOf_lt_of_mem hc
  simp only [ProfileNode.mk.sizeOf_spec]
  omega

/-! ### Tree traversal lemmas -/

theorem ProfileNode.all_nodes_def (n : ProfileNode) :
    n.all_nodes = n :: ProfileNode.allNodesList n.children := by
  cases n
  simp [ProfileNode.all_nodes, ProfileNode.children]

theorem ProfileNode.mem_allNodesList {n : ProfileNode} {cs : List ProfileNode} :
    n ∈ ProfileNode.allNodesList cs ↔ ∃ c ∈ cs, n ∈ c.all_nodes := by
  induction cs with
  | nil => simp [ProfileNode.allNodesList]
  | cons c cs ih => simp [ProfileNode.allNodesList, ih]

theorem ProfileNode.self_mem_all_nodes (n : ProfileNode) : n ∈ n.all_nodes := by
  rw [ProfileNode.all_nodes_def]
  exact List.mem_cons_self _ _

theorem ProfileNode.childrenDurationSum_eq (cs : List ProfileNode) :
    ProfileNode.childrenDurationSum cs = (cs.map ProfileNode.total_duration).sum := by
  induction cs with
  | nil => simp [ProfileNode.childrenDurationSum]
  | cons c cs ih => simp [ProfileNode.childrenDurationSum, ih]

theorem ProfileNode.total_duration_of_cache_none (n : ProfileNode)
    (h : n.total_duration_cache = none) :
    n.total_duration = n.self_duration + n.children_duration := by
  cases n with
  | mk k nm cs m mt st os md cache =>
    simp only [ProfileNode.total_duration_cache] at h
    subst h
    simp [ProfileNode.total_duration, ProfileNode.children_duration,
      ProfileNode.children]

theorem ProfileNode.cacheFree_def (n : ProfileNode) :
    n.cacheFree = (n.total_duration_cache.isNone && ProfileNode.cacheFreeList n.children) := by
  cases n
  simp [ProfileNode.cacheFree, ProfileNode.total_duration_cache, ProfileNode.children]

theorem ProfileNode.cacheFreeList_iff {cs : List ProfileNode} :
    ProfileNode.cacheFreeList cs = true ↔ ∀ c ∈ cs, c.cacheFree = true := by
  induction cs with
  | nil => simp [ProfileNode.cacheFreeList]
  | cons c cs ih => simp [ProfileNode.cacheFreeList, ih]

theorem ProfileNode.cacheFree_of_mem_all_nodes {t n : ProfileNode}
    (hmem : n ∈ t.all_nodes) (hfree : t.cacheFree = true) : n.cacheFree = true := by
  induction t using ProfileNode.inductionOn with
  | h k nm cs m mt st os md cache ih =>
    rw [ProfileNode.all_nodes_def] at hmem
    rw [ProfileNode.cacheFree_def] at hfree
    simp only [ProfileNode.children, Bool.and_eq_true, ProfileNode.cacheFreeList_iff] at hfree
    rcases List.mem_cons.mp hmem with rfl | hmem'
    · rw [ProfileNode.cacheFree_def]
      simp only [ProfileNode.children, Bool.and_eq_true, ProfileNode.cacheFreeList_iff]
      exact hfree
    · simp only [ProfileNode.children] at hmem'
      rcases ProfileNode.mem_allNodesList.mp hmem' with ⟨c, hc, hnc⟩
      exact ih c hc hnc (hfree.2 c hc)

/-! ### Claim C8 -/

/-- C8: for every built `ProfileNode` tree (every node's `_total_duration`
cache unset, as the parser always leaves it) and every node `n` in it,
`total_duration n` equals `self_duration n` plus the sum of `total_duration`
over the children of `n`.  Stability across queries holds structurally: every
query of the model is a pure function of the tree. -/
theorem C8_total_duration_structural (t : ProfileNode)
    (hfree : t.cacheFree = true) :
    ∀ n ∈ t.all_nodes,
      n.total_duration =
        n.self_duration + (n.children.map ProfileNode.total_duration).sum := by
  intro n hn
  have hnf := ProfileNode.cacheFree_of_mem_all_nodes hn hfree
  rw [ProfileNode.cacheFree_def, Bool.and_eq_true, Option.isNone_iff_eq_none] at hnf
  rw [ProfileNode.total_duration_of_cache_none n hnf.1,
    ProfileNode.children_duration, ProfileNode.childrenDurationSum_eq]

/-- Witness for C8 at the concrete tree `exRoot`. -/
theorem C8_witness :
    exRoot.cacheFree = true ∧
      ∀ n ∈ exRoot.all_nodes,
        n.total_duration =
          n.self_duration + (n.children.map ProfileNode.total_duration).sum := by
  have h : exRoot.cacheFree = true := by
    simp [exRoot, exLeafA, exLeafB, ProfileNode.cacheFree, ProfileNode.cacheFreeList]
  exact ⟨h, C8_total_duration_structural exRoot h⟩

/-! ### Claims C3 and C1 (compare_profiles) -/

theorem exRoot_total : exRoot.total_duration = 6 := by
  simp [exRoot, exLeafA, exLeafB, ProfileNode.total_duration,
    ProfileNode.childrenDurationSum, ProfileNode.self_duration,
    ProfileNode.metric, TimingMetric.total]
  norm_num

theorem exRoot2_total : exRoot2.total_duration = 12 := by
  simp [exRoot2, ProfileNode.total_duration, ProfileNode.childrenDurationSum,
    ProfileNode.self_duration, ProfileNode.metric, TimingMetric.total]
  norm_num

/-- C3, counterexample: with `threshold = 100` and totals 6 and 12 the overall
change is exactly `+threshold`, yet the code classifies "unchanged" — the
comparison on line 525 of `server.py` is strict, so a change of exactly
`+threshold` is not "regressed" (and symmetrically for `-threshold`). -/
theorem C3_counterexample :
    (compare_profiles exProfile exProfile2 100).overall_change_percent = 100 ∧
    (compare_profiles exProfile exProfile2 100).threshold_percent = 100 ∧
    (compare_profiles exProfile exProfile2 100).overall_status = "unchanged" ∧
    (compare_profiles exProfile exProfile2 100).overall_status ≠ "regressed" := by
  have ha : exProfile.root = exRoot := rfl
  have hb : exProfile2.root = exRoot2 := rfl
  simp only [compare_profiles, ha, hb, exRoot_total, exRoot2_total]
  norm_num
  decide

/-- C3, amended: for nonnegative thresholds, `compare_profiles` classifies the
overall change with strict comparisons: "improved" when the change is strictly
below `-threshold`, "regressed" when strictly above `+threshold`, and
"unchanged" otherwise — in particular a change of exactly `±threshold` is
"unchanged", not "regressed"/"improved".  The overall change itself is
`(total_b - total_a) / total_a * 100` (0 when `total_a` is not positive). -/
theorem C3_overall_status_strict (pa pb : CachedProfile) (t : ℚ) (ht : 0 ≤ t) :
    (compare_profiles pa pb t).overall_change_percent =
      (if pa.root.total_duration > 0
        then (pb.root.total_duration - pa.root.total_duration) /
          pa.root.total_duration * 100
        else 0) ∧
    ((compare_profiles pa pb t).overall_status = "improved" ↔
      (compare_profiles pa pb t).overall_change_percent < -t) ∧
    ((compare_profiles pa pb t).overall_status = "regressed" ↔
      t < (compare_profiles pa pb t).overall_change_percent) ∧
    ((compare_profiles pa pb t).overall_status = "unchanged" ↔
      -t ≤ (compare_profiles pa pb t).overall_change_percent ∧
        (compare_profiles pa pb t).overall_change_percent ≤ t) := by
  simp only [compare_profiles]
  refine ⟨by trivial, ?_⟩
  set x := (if pa.root.total_duration > 0
    then (pb.root.total_duration - pa.root.total_duration) /
      pa.root.total_duration * 100
    else 0) with hx
  clear_value x
  by_cases h1 : x < -t
  · simp only [if_pos h1]
    exact ⟨iff_of_true (by decide) h1,
      iff_of_false (by decide) (fun h => by linarith),
      iff_of_false (by decide) (fun h => by linarith [h.1])⟩
  · simp only [if_neg h1]
    by_cases h2 : x > t
    · simp only [if_pos h2]
      exact ⟨iff_of_false (by decide) (fun h => h1 h),
        iff_of_true (by decide) h2,
        iff_of_false (by decide) (fun h => by linarith [h.2])⟩
    · simp only [if_neg h2]
      exact ⟨iff_of_false (by decide) (fun h => h1 h),
        iff_of_false (by decide) (fun h => h2 h),
        iff_of_true (by decide) ⟨by linarith [not_lt.mp h1], not_lt.mp h2⟩⟩

/-- Witness for the amended C3 at the concrete profiles and threshold 5. -/
theorem C3_witness :
    (0 : ℚ) ≤ 5 ∧
      (((compare_profiles exProfile exProfile2 5).overall_status = "improved" ↔
        (compare_profiles exProfile exProfile2 5).overall_change_percent < -5) ∧
      ((compare_profiles exProfile exProfile2 5).overall_status = "regressed" ↔
        5 < (compare_profiles exProfile exProfile2 5).overall_change_percent)) :=
  ⟨by norm_num,
    ⟨(C3_overall_status_strict exProfile exProfile2 5 (by norm_num)).2.1,
     (C3_overall_status_strict exProfile exProfile2 5 (by norm_num)).2.2.1⟩⟩

/-- C1, amended: comparing a cached profile against itself with threshold 0
yields `overall_change_percent = 0`, and every entry of `significant_changes`
has `change_percent = 0` and status "unchanged" — but the list is NOT empty:
with threshold 0 the filter `abs(change) >= threshold` keeps every keyed node
with nonzero self duration (each reported as a zero change). -/
theorem C1_self_compare (p : CachedProfile) :
    (compare_profiles p p 0).overall_change_percent = 0 ∧
    ∀ e ∈ (compare_profiles p p 0).significant_changes,
      e.change_percent = 0 ∧ e.status = "unchanged" := by
  constructor
  · simp only [compare_profiles]
    split_ifs with h
    · simp
    · rfl
  · intro e he
    simp only [compare_profiles] at he
    have he1 := List.mem_of_mem_take he
    rw [(List.perm_insertionSort _ _).mem_iff, List.mem_filterMap] at he1
    obtain ⟨k, hk, hc⟩ := he1
    simp only [changeFor] at hc
    split_ifs at hc with h0 h1 h2
    rw [Option.some_inj] at hc
    subst hc
    exact ⟨by simp, by simp [entryStatus]⟩

/-- C1, counterexample: `exRoot` has a keyed node with positive self duration,
yet `compare_profiles(exProfile, exProfile, 0)` returns a NON-empty
`significant_changes` list — with threshold 0 the filter `abs(0) >= 0` keeps
every keyed node with nonzero duration, so the claimed empty list is wrong. -/
theorem C1_counterexample :
    (∃ n ∈ exRoot.all_nodes, n.key ≠ "" ∧ 0 < n.self_duration) ∧
    (compare_profiles exProfile exProfile 0).significant_changes ≠ [] := by
  constructor
  · refine ⟨exRoot, ProfileNode.self_mem_all_nodes exRoot, ?_, ?_⟩
    · simp [exRoot, ProfileNode.key]
    · norm_num [exRoot, ProfileNode.self_duration, ProfileNode.metric,
        TimingMetric.total]
  · have hroot : exProfile.root = exRoot := rfl
    have hmap : buildNodeMap exRoot = [("r", exRoot), ("a", exLeafA), ("b", exLeafB)] := by
      simp [buildNodeMap, exRoot, exLeafA, exLeafB, ProfileNode.all_nodes,
        ProfileNode.allNodesList, ProfileNode.key, dput]
    have hchg : changeFor (buildNodeMap exRoot) (buildNodeMap exRoot) 0 "r" =
        some ⟨"r", "R", 1, 1, 0, "unchanged"⟩ := by
      rw [hmap]
      norm_num [changeFor, alookup, selfDurationOf, exRoot,
        ProfileNode.self_duration, ProfileNode.metric, TimingMetric.total,
        entryStatus, nameOfFirst, ProfileNode.name]
    have hkeys : "r" ∈ ((buildNodeMap exRoot).map Prod.fst ++
        (buildNodeMap exRoot).map Prod.fst).dedup := by
      rw [hmap]
      simp
    have hmem : (⟨"r", "R", 1, 1, 0, "unchanged"⟩ : ChangeEntry) ∈
        List.filterMap (changeFor (buildNodeMap exRoot) (buildNodeMap exRoot) 0)
          ((buildNodeMap exRoot).map Prod.fst ++
            (buildNodeMap exRoot).map Prod.fst).dedup :=
      List.mem_filterMap.mpr ⟨"r", hkeys, hchg⟩
    simp only [compare_profiles, hroot]
    intro hnil
    rw [List.take_eq_nil_iff] at hnil
    rcases hnil with h20 | hsort
    · exact absurd h20 (by norm_num)
    · have := (List.perm_insertionSort
        (descendingOn fun e => |ChangeEntry.change_percent e|) _).mem_iff.mpr hmem
      rw [hsort] at this
      exact absurd this (List.not_mem_nil _)

/-! ### Claim C6 -/

/-- C6: `find_slowest` returns at most `limit` entries, in non-increasing
order of the chosen duration (total when `include_children`, else self); every
entry stems from a node with non-empty key and chosen duration at least
`min_duration`, and `avg_duration` is the duration divided by the invocation
count, falling back to the raw duration when the count is 0. -/
theorem C6_find_slowest (root : ProfileNode) (limit : ℕ) (min_duration : ℚ)
    (include_children : Bool) :
    (find_slowest root limit min_duration include_children).length ≤ limit ∧
    ((find_slowest root limit min_duration include_children).map
      SlowEntry.duration).Sorted (· ≥ ·) ∧
    ∀ e ∈ find_slowest root limit min_duration include_children,
      e.key ≠ "" ∧ min_duration ≤ e.duration ∧
      (e.invocations = 0 → e.avg_duration = e.duration) ∧
      (0 < e.invocations → e.avg_duration = e.duration / (e.invocations : ℚ)) ∧
      ∃ n ∈ root.all_nodes, e.key = n.key ∧
        e.duration = chosenDuration include_children n := by
  simp only [find_slowest]
  refine ⟨?_, ?_, ?_⟩
  · rw [List.length_map]
    exact le_trans (List.length_take_le _ _) (le_refl _)
  · rw [List.map_map, List.Sorted, List.pairwise_map]
    exact List.Pairwise.sublist (List.take_sublist _ _)
      (List.sorted_insertionSort (descendingOn Prod.snd) _)
  · intro e he
    simp only [List.mem_map] at he
    obtain ⟨p, hp, rfl⟩ := he
    have hp1 := List.mem_of_mem_take hp
    rw [(List.perm_insertionSort _ _).mem_iff] at hp1
    simp only [List.mem_map] at hp1
    obtain ⟨n, hn, rfl⟩ := hp1
    rw [List.mem_filter] at hn
    obtain ⟨hnmem, hcond⟩ := hn
    simp only [Bool.and_eq_true, decide_eq_true_eq, Bool.not_eq_true',
      beq_eq_false_iff_ne, ne_eq] at hcond
    refine ⟨hcond.2, hcond.1, ?_, ?_, n, hnmem, rfl, rfl⟩
    · intro h0
      simp only at h0 ⊢
      rw [if_neg]
      rw [h0]
      exact lt_irrefl 0
    · intro hpos
      simp only at hpos ⊢
      rw [if_pos hpos]

/-! ### Claim C9 -/

/-- C9: when the regex compiler (always invoked with the ignorecase flag, as
the source passes `re.IGNORECASE`) rejects the pattern, `search_operations`
returns the invalid-pattern error and no match list; when it accepts, every
returned entry matches the compiled (case-insensitive) matcher on the node
name, and the list is sorted by `total_duration` descending and truncated to
`limit`. -/
theorem C9_search_operations (compile : String → Bool → Option (String → Bool))
    (root : ProfileNode) (pattern : String) (limit : ℕ) :
    (compile pattern true = none →
      search_operations compile root pattern limit =
        SearchResult.invalidArg pattern) ∧
    ∀ regex ms mc sh, compile pattern true = some regex →
      search_operations compile root pattern limit = SearchResult.ok ms mc sh →
      ms.length ≤ limit ∧
      (ms.map SearchEntry.duration).Sorted (· ≥ ·) ∧
      ∀ e ∈ ms, ∃ n ∈ root.all_nodes, regex n.name = true ∧
        e.name = n.name ∧ e.duration = n.total_duration := by
  constructor
  · intro h
    simp [search_operations, h]
  · intro regex ms mc sh hcomp heq
    simp only [search_operations, hcomp] at heq
    cases heq
    refine ⟨?_, ?_, ?_⟩
    · exact le_trans (List.length_take_le _ _) (le_refl _)
    · rw [List.Sorted, List.pairwise_map]
      exact List.Pairwise.sublist (List.take_sublist _ _)
        (List.sorted_insertionSort (descendingOn SearchEntry.duration) _)
    · intro e he
      have he1 := List.mem_of_mem_take he
      rw [(List.perm_insertionSort _ _).mem_iff] at he1
      simp only [List.mem_map] at he1
      obtain ⟨n, hn, rfl⟩ := he1
      rw [List.mem_filter] at hn
      exact ⟨n, hn.1, hn.2, rfl, rfl⟩

/-- Witness for C9: a compiler rejecting the pattern yields the error result
with no match list. -/
theorem C9_witness :
    (fun (_ : String) (_ : Bool) => (none : Option (String → Bool)))
        "kernel(" true = none ∧
      search_operations (fun _ _ => none) exRoot "kernel(" 5 =
        SearchResult.invalidArg "kernel(" :=
  ⟨rfl,
    (C9_search_operations (fun _ _ => none) exRoot "kernel(" 5).1 rfl⟩

/-! ### Cache lemmas -/

theorem moveToEnd_length (l : CacheState) (pid : String) :
    (moveToEnd l pid).length = l.length := by
  induction l with
  | nil => rfl
  | cons e rest ih =>
    simp only [moveToEnd]
    split_ifs with h
    · simp
    · simp [ih]


theorem moveToEnd_getLast {l : CacheState} {e : CachedProfile}
    (hnd : (l.map CachedProfile.profile_id).Nodup) (he : e ∈ l) :
    (moveToEnd l e.profile_id).getLast? = some e := by
  induction l with
  | nil => exact absurd he (List.not_mem_nil e)
  | cons x rest ih =>
    simp only [List.map_cons, List.nodup_cons] at hnd
    simp only [moveToEnd]
    split_ifs with h
    · have hex : e = x := by
        rcases List.mem_cons.mp he with rfl | hrest
        · rfl
        · exact absurd (h ▸ List.mem_map_of_mem CachedProfile.profile_id hrest)
            hnd.1
      subst hex
      exact List.getLast?_concat rest
    · have hrest : e ∈ rest := by
        rcases List.mem_cons.mp he with rfl | hr
        · exact absurd rfl h
        · exact hr
      have hne : moveToEnd rest e.profile_id ≠ [] := by
        intro hnil
        have hlen := moveToEnd_length rest e.profile_id
        rw [hnil] at hlen
        have : rest.length = 0 := hlen.symm
        rw [List.length_eq_zero] at this
        subst this
        exact absurd hrest (List.not_mem_nil e)
      calc (x :: moveToEnd rest e.profile_id).getLast?
          = ([x] ++ moveToEnd rest e.profile_id).getLast? := by
            rw [List.singleton_append]
        _ = (moveToEnd rest e.profile_id).getLast? :=
            List.getLast?_append_of_ne_nil [x] hne
        _ = some e := ih hnd.2 hrest

/-! ### Claim C5 -/

/-- C5: a `load` on a path that is already cached returns the cached entry
unchanged (same `profile_id`), ignores the parse outcome and fresh id entirely
(no re-parse), leaves the cache size unchanged, and moves the entry to the
most-recently-used end. -/
theorem C5_load_hit (max_size : ℕ) (st : CacheState) (path : String)
    (e : CachedProfile) (parsed : Except PyErr ProfileNode) (fresh_id : String)
    (hfind : st.find? (fun x => x.path == path) = some e)
    (hnd : (st.map CachedProfile.profile_id).Nodup) :
    ProfileCache.load max_size st path parsed fresh_id =
      .ok (e, moveToEnd st e.profile_id) ∧
    (∀ parsed' fresh_id',
      ProfileCache.load max_size st path parsed' fresh_id' =
        ProfileCache.load max_size st path parsed fresh_id) ∧
    (moveToEnd st e.profile_id).length = st.length ∧
    (moveToEnd st e.profile_id).getLast? = some e := by
  refine ⟨?_, ?_, moveToEnd_length st e.profile_id,
    moveToEnd_getLast hnd (List.mem_of_find?_eq_some hfind)⟩
  · simp [ProfileCache.load, hfind]
  · intro parsed' fresh_id'
    simp [ProfileCache.load, hfind]

/-- Witness for C5 at a concrete two-entry cache. -/
theorem C5_witness :
    ((([exLoad1.entry, exLoad2.entry] : CacheState).find?
        (fun x => x.path == "/tmp/q.xml") = some exLoad2.entry) ∧
      (([exLoad1.entry, exLoad2.entry] : CacheState).map
        CachedProfile.profile_id).Nodup) ∧
    (ProfileCache.load 10 [exLoad1.entry, exLoad2.entry] "/tmp/q.xml"
        (.error .valueError) "freshZ" =
      .ok (exLoad2.entry,
        moveToEnd [exLoad1.entry, exLoad2.entry] exLoad2.entry.profile_id) ∧
    (∀ parsed' fresh_id',
      ProfileCache.load 10 [exLoad1.entry, exLoad2.entry] "/tmp/q.xml"
          parsed' fresh_id' =
        ProfileCache.load 10 [exLoad1.entry, exLoad2.entry] "/tmp/q.xml"
          (.error .valueError) "freshZ") ∧
    (moveToEnd [exLoad1.entry, exLoad2.entry] exLoad2.entry.profile_id).length =
      ([exLoad1.entry, exLoad2.entry] : CacheState).length ∧
    (moveToEnd [exLoad1.entry, exLoad2.entry] exLoad2.entry.profile_id).getLast? =
      some exLoad2.entry) := by
  have h1 : (([exLoad1.entry, exLoad2.entry] : CacheState).find?
      (fun x => x.path == "/tmp/q.xml") = some exLoad2.entry) := by
    simp [exLoad1, exLoad2, LoadInput.entry, mkCachedProfile]
  have h2 : (([exLoad1.entry, exLoad2.entry] : CacheState).map
      CachedProfile.profile_id).Nodup := by
    simp [exLoad1, exLoad2, LoadInput.entry, mkCachedProfile]
  exact ⟨⟨h1, h2⟩,
    C5_load_hit 10 [exLoad1.entry, exLoad2.entry] "/tmp/q.xml" exLoad2.entry
      (.error .valueError) "freshZ" h1 h2⟩

/-! ### Claim C10 -/

theorem evict_loop_zero (l : CacheState) : evict_loop 0 l = .error .keyError := by
  induction l with
  | nil => simp [evict_loop]
  | cons e rest ih => simpa [evict_loop] using ih

/-- C10: with `max_size = 0` the eviction condition `len(cache) >= 0` is
always true, so a `load` of an uncached path pops until the `OrderedDict` is
empty and then `popitem` raises `KeyError`: the call never returns a
`CachedProfile`, failing after parsing but before insertion. -/
theorem C10_load_zero_cache (st : CacheState) (path : String)
    (parsed : Except PyErr ProfileNode) (fresh_id : String)
    (hmiss : st.find? (fun e => e.path == path) = none) :
    (∀ root fid, ProfileCache.load 0 st path (.ok root) fid =
      .error .keyError) ∧
    ∀ result, ProfileCache.load 0 st path parsed fresh_id ≠ .ok result := by
  constructor
  · intro root fid
    simp [ProfileCache.load, hmiss, evict_loop_zero]
  · intro result
    cases parsed with
    | error pe => simp [ProfileCache.load, hmiss]
    | ok root => simp [ProfileCache.load, hmiss, evict_loop_zero]

/-- Witness for C10 on the empty cache. -/
theorem C10_witness :
    (([] : CacheState).find? (fun e => e.path == "/tmp/p.xml") = none) ∧
    (∀ root fid, ProfileCache.load 0 [] "/tmp/p.xml" (.ok root) fid =
      .error .keyError) ∧
    ∀ result, ProfileCache.load 0 [] "/tmp/p.xml" (.ok exRoot) "id9" ≠
      .ok result :=
  ⟨rfl, C10_load_zero_cache [] "/tmp/p.xml" (.ok exRoot) "id9" rfl⟩

/-! ### Claim C4 -/

theorem evict_loop_of_lt {max_size : ℕ} {l : CacheState}
    (h : l.length < max_size) : evict_loop max_size l = .ok l := by
  cases l with
  | nil =>
    simp only [evict_loop]
    rw [if_neg (by omega)]
  | cons e rest =>
    simp only [evict_loop]
    rw [if_neg (by omega)]

theorem evict_loop_of_pos {max_size : ℕ} (hM : 1 ≤ max_size) :
    ∀ l : CacheState,
      evict_loop max_size l = .ok (l.drop (l.length + 1 - max_size))
  | [] => by
    simp only [evict_loop, List.length_nil, ge_iff_le]
    rw [if_neg (by omega)]
    simp
  | e :: rest => by
    by_cases h : (e :: rest).length ≥ max_size
    · simp only [evict_loop, if_pos h]
      rw [evict_loop_of_pos hM rest]
      congr 1
      have hlen : rest.length + 1 ≥ max_size := by simpa using h
      have : (e :: rest).length + 1 - max_size =
          (rest.length + 1 - max_size) + 1 := by
        simp only [List.length_cons]
        omega
      rw [this, List.drop_succ_cons]
    · simp only [evict_loop, if_neg h]
      have : (e :: rest).length + 1 - max_size = 0 := by
        simp only [List.length_cons] at h ⊢
        omega
      rw [this, List.drop_zero]

theorem removeEntry_length_le (l : CacheState) (pid : String) :
    (ProfileCache.removeEntry l pid).length ≤ l.length := by
  induction l with
  | nil => simp [ProfileCache.removeEntry]
  | cons e rest ih =>
    simp only [ProfileCache.removeEntry]
    split_ifs with h
    · simp
    · simpa using ih

theorem stepState_length_le {max_size : ℕ} {st : CacheState} (op : CacheOp)
    (h : st.length ≤ max_size) :
    (stepState max_size st op).length ≤ max_size := by
  cases op with
  | load path parsed fresh_id =>
    simp only [stepState, ProfileCache.load]
    cases hfind : st.find? (fun e => e.path == path) with
    | some e => simpa [moveToEnd_length] using h
    | none =>
      cases parsed with
      | error pe => simpa using h
      | ok root =>
        cases hM : max_size with
        | zero => rw [evict_loop_zero]; simp
        | succ m =>
          rw [evict_loop_of_pos (by omega)]
          simp only [List.length_append, List.length_drop, List.length_singleton]
          omega
  | get pid =>
    simp only [stepState, ProfileCache.get]
    cases st.find? (fun e => e.profile_id == pid) with
    | some e => simpa [moveToEnd_length] using h
    | none => simpa using h
  | remove pid =>
    simpa [stepState] using le_trans (removeEntry_length_le st pid) h
  | clear => simp [stepState]

theorem runOps_length_le {max_size : ℕ} (ops : List CacheOp) :
    ∀ st : CacheState, st.length ≤ max_size →
      (runOps max_size st ops).length ≤ max_size := by
  induction ops with
  | nil => intro st h; simpa [runOps] using h
  | cons op rest ih =>
    intro st h
    simp only [runOps, List.foldl_cons]
    exact ih _ (stepState_length_le op h)

theorem loadsFrom_append (max_size : ℕ) (st : CacheState)
    (xs ys : List LoadInput) :
    loadsFrom max_size st (xs ++ ys) =
      loadsFrom max_size (loadsFrom max_size st xs) ys := by
  simp [loadsFrom, runOps, List.map_append, List.foldl_append]

theorem loadsFrom_fill (max_size : ℕ) (is_ : List LoadInput) :
    ∀ st : CacheState, st.length + is_.length ≤ max_size →
      (statePaths st ++ is_.map LoadInput.path).Nodup →
      loadsFrom max_size st is_ = st ++ is_.map LoadInput.entry := by
  induction is_ with
  | nil => intro st _ _; simp [loadsFrom, runOps]
  | cons i rest ih =>
    intro st hlen hnd
    have hdisj := (List.nodup_append.mp hnd).2.2
    have hfresh : st.find? (fun e => e.path == i.path) = none := by
      rw [List.find?_eq_none]
      intro x hx
      simp only [beq_iff_eq, Bool.not_eq_true]
      intro hxe
      have hmem : i.path ∈ statePaths st := by
        rw [← hxe]
        exact List.mem_map_of_mem CachedProfile.path hx
      exact hdisj hmem (List.mem_cons_self _ _)
    have hlen1 : st.length < max_size := by
      simp only [List.length_cons] at hlen
      omega
    have hstep : stepState max_size st i.toOp = st ++ [i.entry] := by
      simp only [LoadInput.toOp, stepState, ProfileCache.load, hfresh,
        evict_loop_of_lt hlen1]
      rfl
    have hrec : loadsFrom max_size (st ++ [i.entry]) rest =
        (st ++ [i.entry]) ++ rest.map LoadInput.entry := by
      refine ih (st ++ [i.entry]) ?_ ?_
      · simp only [List.length_append, List.length_singleton,
          List.length_cons, List.length_nil] at hlen ⊢
        omega
      · have hsp : statePaths (st ++ [i.entry]) = statePaths st ++ [i.path] := by
          simp [statePaths, LoadInput.entry, mkCachedProfile]
        rw [hsp, List.append_assoc, List.singleton_append]
        simpa using hnd
    calc loadsFrom max_size st (i :: rest)
        = loadsFrom max_size (stepState max_size st i.toOp) rest := by
          simp [loadsFrom, runOps]
      _ = (st ++ [i.entry]) ++ rest.map LoadInput.entry := by
          rw [hstep, hrec]
      _ = st ++ (i :: rest).map LoadInput.entry := by
          simp

/-- C4: starting from an empty cache with `max_size = M ≥ 1`, loading `M + 1`
distinct (successfully parsing) paths leaves exactly `M` entries; the
surviving paths are exactly the last `M` in load order, i.e. the evicted entry
is the least-recently-touched first load, and eviction precedes the final
insertion.  Moreover from any state within bounds, no sequence of
load/get/remove/clear operations ever pushes the size above `M`. -/
theorem C4_lru_eviction (max_size : ℕ) (hM : 1 ≤ max_size)
    (is_ : List LoadInput) (hlen : is_.length = max_size + 1)
    (hnd : (is_.map LoadInput.path).Nodup) :
    (loadsFrom max_size [] is_).length = max_size ∧
    statePaths (loadsFrom max_size [] is_) =
      (is_.map LoadInput.path).drop 1 ∧
    ∀ (st : CacheState) (ops : List CacheOp), st.length ≤ max_size →
      (runOps max_size st ops).length ≤ max_size := by
  have hne : is_ ≠ [] := by
    intro h
    rw [h] at hlen
    simp at hlen
  obtain ⟨as, b, rfl⟩ : ∃ as b, is_ = as ++ [b] :=
    ⟨is_.dropLast, is_.getLast hne, (List.dropLast_append_getLast hne).symm⟩
  have has_len : as.length = max_size := by
    simp only [List.length_append, List.length_singleton] at hlen
    omega
  have hnd_as : (as.map LoadInput.path).Nodup := by
    rw [List.map_append] at hnd
    exact List.Nodup.of_append_left hnd
  have hfill : loadsFrom max_size [] as = as.map LoadInput.entry := by
    refine loadsFrom_fill max_size as [] (by simp [has_len]) ?_
    simpa [statePaths] using hnd_as
  have hbfresh : b.path ∉ as.map LoadInput.path := by
    rw [List.map_append] at hnd
    have hdisj := (List.nodup_append.mp hnd).2.2
    intro hmem
    exact hdisj hmem (by simp)
  have hfind : (as.map LoadInput.entry).find?
      (fun e => e.path == b.path) = none := by
    rw [List.find?_eq_none]
    intro x hx
    simp only [beq_iff_eq, Bool.not_eq_true]
    intro hxe
    rcases List.mem_map.mp hx with ⟨a, ha, rfl⟩
    have : b.path ∈ as.map LoadInput.path := by
      rw [← hxe]
      exact List.mem_map_of_mem LoadInput.path ha
    exact hbfresh this
  have hmaplen : (as.map LoadInput.entry).length = max_size := by
    simpa using has_len
  have hstep : loadsFrom max_size [] (as ++ [b]) =
      (as.map LoadInput.entry).drop 1 ++ [b.entry] := by
    rw [loadsFrom_append, hfill]
    simp only [loadsFrom, runOps, List.map_cons, List.map_nil,
      List.foldl_cons, List.foldl_nil]
    simp only [LoadInput.toOp, stepState, ProfileCache.load, hfind,
      evict_loop_of_pos hM]
    rw [hmaplen]
    simp only [Nat.add_sub_cancel_left]
    rfl
  refine ⟨?_, ?_, fun st ops h => runOps_length_le ops st h⟩
  · rw [hstep]
    simp only [List.length_append, List.length_drop, List.length_singleton,
      hmaplen]
    omega
  · rw [hstep]
    have hpaths : statePaths ((as.map LoadInput.entry).drop 1 ++ [b.entry]) =
        (as.map LoadInput.path).drop 1 ++ [b.path] := by
      simp only [statePaths, List.map_append, List.map_drop, List.map_map]
      congr 2
    rw [hpaths, List.map_append]
    rw [List.drop_append_of_le_length (by simp only [List.length_map]; omega)]
    simp

/-- Witness for C4: `max_size = 1`, two distinct paths. -/
theorem C4_witness :
    ((1 : ℕ) ≤ 1 ∧ ([exLoad1, exLoad2].length = 1 + 1) ∧
      ([exLoad1, exLoad2].map LoadInput.path).Nodup) ∧
    ((loadsFrom 1 [] [exLoad1, exLoad2]).length = 1 ∧
      statePaths (loadsFrom 1 [] [exLoad1, exLoad2]) =
        ([exLoad1, exLoad2].map LoadInput.path).drop 1 ∧
      ∀ (st : CacheState) (ops : List CacheOp), st.length ≤ 1 →
        (runOps 1 st ops).length ≤ 1) :=
  ⟨⟨le_refl 1, rfl, by decide⟩,
    C4_lru_eviction 1 (le_refl 1) [exLoad1, exLoad2] rfl (by decide)⟩

/-! ### Claim C2 -/

/-- C2, counterexample: a map entry with fewer than two child values does NOT
make decoding fail — `_parse_double_map` silently skips it (`if
len(children) >= 2` guards the entry) and succeeds with an empty map. -/
theorem C2_counterexample :
    exShortPut.children.length = 1 ∧
    parse_double_map exShortElem = .ok [] := by
  constructor
  · rfl
  · simp [parse_double_map, findAllClass, exShortElem, exShortMap, exShortPut,
      XmlElement.descendants, XmlElement.descList, putVoids,
      parseDoubleEntries, putEntryDouble, XmlElement.children, XmlElement.tag,
      XmlElement.attrs, alookup, List.filter]

/-- C2, amended: a scalar whose own typed tag fails coercion (non-numeric text
under a `double` tag) does raise a conversion error; but a map entry with
fewer than two child values, or an entry whose extracted value fails `float`
coercion, is silently skipped by `_parse_double_map` rather than failing. -/
theorem C2_scalar_errors_but_map_skips (s : String)
    (attrs : List (String × String)) (cs : List XmlElement)
    (hbad : strToFloat? s = none) (hne : s ≠ "")
    (vp : XmlElement) (hshort : vp.children.length ≤ 1)
    (acc : List (String × ℚ)) (rest : List XmlElement)
    (k v : String) (hvbad : strToFloat? v = none) :
    extract_value (.mk "double" attrs (some s) cs) = .error .valueError ∧
    parseDoubleEntries acc (vp :: rest) = parseDoubleEntries acc rest ∧
    parseDoubleEntries acc
        (XmlElement.mk "void" [("method", "put")] none
          [.mk "string" [] (some k) [], .mk "string" [] (some v) []] :: rest) =
      parseDoubleEntries acc rest := by
  refine ⟨?_, ?_, ?_⟩
  · simp [extract_value, hbad, hne]
  · have hput : putEntryDouble acc vp = .ok acc := by
      unfold putEntryDouble
      cases hc : vp.children with
      | nil => rfl
      | cons c0 tail =>
        cases tail with
        | nil => rfl
        | cons c1 t2 =>
          rw [hc] at hshort
          simp at hshort
    simp only [parseDoubleEntries, hput]
  · have hput : putEntryDouble acc
        (XmlElement.mk "void" [("method", "put")] none
          [.mk "string" [] (some k) [], .mk "string" [] (some v) []]) =
        .ok acc := by
      simp [putEntryDouble, extract_value, pyFloat?, hvbad, XmlElement.children]
    simp only [parseDoubleEntries, hput]

/-- Witness for the amended C2: "abc" fails float coercion; `exShortPut` is a
short map entry; "xyz" as a map value is silently dropped. -/
theorem C2_witness :
    (strToFloat? "abc" = none ∧ ("abc" : String) ≠ "" ∧
      exShortPut.children.length ≤ 1 ∧ strToFloat? "xyz" = none) ∧
    (extract_value (.mk "double" [] (some "abc") []) = .error .valueError ∧
    parseDoubleEntries [] [exShortPut] = parseDoubleEntries [] [] ∧
    parseDoubleEntries []
        (XmlElement.mk "void" [("method", "put")] none
          [.mk "string" [] (some "k") [], .mk "string" [] (some "xyz") []] :: []) =
      parseDoubleEntries [] []) :=
  ⟨⟨by decide, by decide, by decide, by decide⟩,
    C2_scalar_errors_but_map_skips "abc" [] [] (by decide) (by decide)
      exShortPut (by decide) [] [] "k" "xyz" (by decide)⟩

/-! ### Claim C7 -/

theorem alookup_append_left {α : Type} {xs : List (String × α)}
    (ys : List (String × α)) {k : String} {v : α}
    (h : alookup xs k = some v) : alookup (xs ++ ys) k = some v := by
  induction xs with
  | nil => simp [alookup] at h
  | cons e rest ih =>
    simp only [alookup, List.cons_append] at h ⊢
    split_ifs at h ⊢ with he
    · exact h
    · exact ih h

theorem alookup_append_right {α : Type} {xs : List (String × α)}
    (ys : List (String × α)) {k : String}
    (h : alookup xs k = none) : alookup (xs ++ ys) k = alookup ys k := by
  induction xs with
  | nil => rfl
  | cons e rest ih =>
    simp only [alookup, List.cons_append] at h ⊢
    split_ifs at h ⊢ with he
    exact ih h

theorem mergeAbsent_cons (e : String × List OperationSource)
    (pm cm : List (String × List OperationSource)) :
    mergeAbsent (e :: pm) cm =
      mergeAbsent pm
        (match alookup cm e.1 with
          | some _ => cm
          | none => cm ++ [e]) := rfl

theorem alookup_mergeAbsent_of_some
    {pm cm : List (String × List OperationSource)} {k : String}
    {v : List OperationSource} (h : alookup cm k = some v) :
    alookup (mergeAbsent pm cm) k = some v := by
  induction pm generalizing cm with
  | nil => exact h
  | cons e pm ih =>
    rw [mergeAbsent_cons]
    cases he : alookup cm e.1 with
    | some w => exact ih h
    | none => exact ih (alookup_append_left [e] h)

theorem isSome_alookup_mergeAbsent_right
    {pm cm : List (String × List OperationSource)} {k : String}
    (h : (alookup cm k).isSome) :
    (alookup (mergeAbsent pm cm) k).isSome := by
  rw [Option.isSome_iff_exists] at h
  obtain ⟨v, hv⟩ := h
  rw [Option.isSome_iff_exists]
  exact ⟨v, alookup_mergeAbsent_of_some hv⟩

theorem isSome_alookup_mergeAbsent_left
    {pm : List (String × List OperationSource)} {k : String}
    (cm : List (String × List OperationSource))
    (h : (alookup pm k).isSome) :
    (alookup (mergeAbsent pm cm) k).isSome := by
  induction pm generalizing cm with
  | nil => simp [alookup] at h
  | cons e pm ih =>
    rw [mergeAbsent_cons]
    simp only [alookup] at h
    split_ifs at h with he
    · cases hc : alookup cm e.1 with
      | some w =>
        refine isSome_alookup_mergeAbsent_right ?_
        rw [← he, hc]
        rfl
      | none =>
        refine isSome_alookup_mergeAbsent_right ?_
        rw [← he, alookup_append_right [e] hc]
        simp [alookup]
    · cases hc : alookup cm e.1 with
      | some w => exact ih _ h
      | none => exact ih _ h

theorem propagateList_get? (pm : List (String × List OperationSource))
    (cs : List ProfileNode) (i : ℕ) :
    (propagateList pm cs).get? i = (cs.get? i).map (propagate_sources pm) := by
  induction cs generalizing i with
  | nil => simp [propagateList]
  | cons c rest ih =>
    cases i with
    | zero => simp [propagateList]
    | succ j => simpa [propagateList] using ih j

theorem propagate_sources_operation_sources
    (pm : List (String × List OperationSource)) (t : ProfileNode) :
    (propagate_sources pm t).operation_sources =
      mergeAbsent pm t.operation_sources := by
  cases t
  simp [propagate_sources, ProfileNode.operation_sources]

theorem propagate_sources_children
    (pm : List (String × List OperationSource)) (t : ProfileNode) :
    (propagate_sources pm t).children =
      propagateList (mergeAbsent pm t.operation_sources) t.children := by
  cases t
  simp [propagate_sources, ProfileNode.operation_sources, ProfileNode.children]

theorem nodeAt_append (t : ProfileNode) (p q : List ℕ) :
    nodeAt t (p ++ q) = (nodeAt t p).bind (fun a => nodeAt a q) := by
  induction p generalizing t with
  | nil => simp [nodeAt]
  | cons i p ih =>
    simp only [List.cons_append, nodeAt]
    cases t.children.get? i with
    | some c => exact ih c
    | none => rfl

theorem nodeAt_propagate_of_nodeAt (p : List ℕ) :
    ∀ (t : ProfileNode) (pm : List (String × List OperationSource))
      (n0 : ProfileNode) (k : String) (v : List OperationSource),
      nodeAt t p = some n0 → alookup n0.operation_sources k = some v →
      ∃ n, nodeAt (propagate_sources pm t) p = some n ∧
        alookup n.operation_sources k = some v := by
  induction p with
  | nil =>
    intro t pm n0 k v h0 hv
    simp only [nodeAt, Option.some_inj] at h0
    refine ⟨propagate_sources pm t, rfl, ?_⟩
    rw [propagate_sources_operation_sources]
    refine alookup_mergeAbsent_of_some ?_
    rw [h0]
    exact hv
  | cons i p ih =>
    intro t pm n0 k v h0 hv
    simp only [nodeAt] at h0
    cases hg : t.children.get? i with
    | none => rw [hg] at h0; exact absurd h0 (by simp)
    | some c =>
      rw [hg] at h0
      obtain ⟨n, hn, hvn⟩ :=
        ih c (mergeAbsent pm t.operation_sources) n0 k v h0 hv
      refine ⟨n, ?_, hvn⟩
      simp only [nodeAt, propagate_sources_children, propagateList_get?, hg,
        Option.map_some]
      exact hn

theorem keys_propagate_downward (q : List ℕ) :
    ∀ (t : ProfileNode) (pm : List (String × List OperationSource))
      (n : ProfileNode) (k : String),
      nodeAt (propagate_sources pm t) q = some n →
      (alookup (mergeAbsent pm t.operation_sources) k).isSome →
      (alookup n.operation_sources k).isSome := by
  induction q with
  | nil =>
    intro t pm n k hq hk
    simp only [nodeAt, Option.some_inj] at hq
    subst hq
    rwa [propagate_sources_operation_sources]
  | cons i q ih =>
    intro t pm n k hq hk
    simp only [nodeAt, propagate_sources_children, propagateList_get?] at hq
    cases hg : t.children.get? i with
    | none => rw [hg] at hq; exact absurd hq (by simp)
    | some c =>
      rw [hg] at hq
      exact ih c (mergeAbsent pm t.operation_sources) n k hq
        (isSome_alookup_mergeAbsent_left _ hk)

theorem propagate_shape (p : List ℕ) :
    ∀ (t : ProfileNode) (pm : List (String × List OperationSource))
      (a : ProfileNode),
      nodeAt (propagate_sources pm t) p = some a →
      ∃ t' pm', a = propagate_sources pm' t' := by
  induction p with
  | nil =>
    intro t pm a hp
    simp only [nodeAt, Option.some_inj] at hp
    exact ⟨t, pm, hp.symm⟩
  | cons i p ih =>
    intro t pm a hp
    simp only [nodeAt, propagate_sources_children, propagateList_get?] at hp
    cases hg : t.children.get? i with
    | none => rw [hg] at hp; exact absurd hp (by simp)
    | some c =>
      rw [hg] at hp
      exact ih c (mergeAbsent pm t.operation_sources) a hp

/-- C7: after the tree builder's source propagation, (1) any key present in
the `operationSources` map of a node `a` is present in the map of every node
`n` of `a`'s subtree (ancestor entries reach every descendant), and (2) an
entry a node carried under a key before propagation is still found unchanged
under that key afterwards (propagation merges only absent keys, never
overwrites). -/
theorem C7_source_propagation (t : ProfileNode) (p q : List ℕ) (k : String)
    (v : List OperationSource) (n0 a n : ProfileNode)
    (h0 : nodeAt t p = some n0)
    (ha : nodeAt (propagate_sources [] t) p = some a)
    (hn : nodeAt (propagate_sources [] t) (p ++ q) = some n) :
    ((alookup a.operation_sources k).isSome →
      (alookup n.operation_sources k).isSome) ∧
    (alookup n0.operation_sources k = some v →
      alookup a.operation_sources k = some v) := by
  constructor
  · intro hk
    rw [nodeAt_append, ha, Option.some_bind] at hn
    obtain ⟨t', pm', rfl⟩ := propagate_shape p t [] a ha
    refine keys_propagate_downward q t' pm' n k hn ?_
    rwa [propagate_sources_operation_sources] at hk
  · intro hv
    obtain ⟨n', hn', hv'⟩ := nodeAt_propagate_of_nodeAt p t [] n0 k v h0 hv
    rw [ha, Option.some_inj] at hn'
    rw [hn']
    exact hv'

/-- Witness for C7 on the two-level `exSrcRoot` tree: the root's entry for
key "r" reaches the child, and the root's own entry survives unchanged. -/
theorem C7_witness :
    (nodeAt exSrcRoot [] = some exSrcRoot ∧
      nodeAt (propagate_sources [] exSrcRoot) [] =
        some (propagate_sources [] exSrcRoot) ∧
      nodeAt (propagate_sources [] exSrcRoot) ([] ++ [0]) =
        some (propagate_sources [("r", [⟨"rootSrc", [], []⟩])] exSrcChild)) ∧
    (((alookup (propagate_sources [] exSrcRoot).operation_sources "r").isSome →
      (alookup (propagate_sources [("r", [⟨"rootSrc", [], []⟩])]
          exSrcChild).operation_sources "r").isSome) ∧
    (alookup exSrcRoot.operation_sources "r" = some [⟨"rootSrc", [], []⟩] →
      alookup (propagate_sources [] exSrcRoot).operation_sources "r" =
        some [⟨"rootSrc", [], []⟩])) := by
  have h0 : nodeAt exSrcRoot [] = some exSrcRoot := rfl
  have ha : nodeAt (propagate_sources [] exSrcRoot) [] =
      some (propagate_sources [] exSrcRoot) := rfl
  have hn : nodeAt (propagate_sources [] exSrcRoot) ([] ++ [0]) =
      some (propagate_sources [("r", [⟨"rootSrc", [], []⟩])] exSrcChild) := by
    simp only [List.nil_append, nodeAt, propagate_sources_children,
      propagateList_get?]
    simp [exSrcRoot, ProfileNode.children, ProfileNode.operation_sources,
      mergeAbsent]
  exact ⟨⟨h0, ha, hn⟩,
    C7_source_propagation exSrcRoot [] [0] "r" [⟨"rootSrc", [], []⟩]
      exSrcRoot (propagate_sources [] exSrcRoot)
      (propagate_sources [("r", [⟨"rootSrc", [], []⟩])] exSrcChild) h0 ha hn⟩

/-- Witness instantiating the amended C1 at the concrete profile. -/
theorem C1_witness :
    (compare_profiles exProfile exProfile 0).overall_change_percent = 0 ∧
    ∀ e ∈ (compare_profiles exProfile exProfile 0).significant_changes,
      e.change_percent = 0 ∧ e.status = "unchanged" :=
  C1_self_compare exProfile

/-- Witness instantiating C6 at the concrete tree. -/
theorem C6_witness :
    (find_slowest exRoot 1 0 false).length ≤ 1 ∧
    ((find_slowest exRoot 1 0 false).map SlowEntry.duration).Sorted (· ≥ ·) ∧
    ∀ e ∈ find_slowest exRoot 1 0 false,
      e.key ≠ "" ∧ (0 : ℚ) ≤ e.duration ∧
      (e.invocations = 0 → e.avg_duration = e.duration) ∧
      (0 < e.invocations → e.avg_duration = e.duration / (e.invocations : ℚ)) ∧
      ∃ n ∈ exRoot.all_nodes, e.key = n.key ∧
        e.duration = chosenDuration false n :=
  C6_find_slowest exRoot 1 0 false
